import Mathlib

/-! Verification of the RFM customer segmentation pipeline
(`RFM_Analysis.py`, with `Customer_Segmentation_RFM_Analysis.py` as a
duplicate of the same logic).  The pipeline is embedded shallowly:

* the cleaning stage `df_clean` (STEP 2 of the script),
* the aggregation `rfm` with its `snapshot_date` (STEP 3),
* the scoring stage `assignScores` embedding `pd.qcut` / `pd.cut`
  followed by the fillna loop (STEP 4),
* the classifier `get_segment` (STEP 5).

Timestamps are modelled as minutes (a natural number), matching the
minute resolution of the `%d/%m/%Y %H:%M` format the script parses
with; a pandas `Timedelta`'s `.days` is then minutes divided by 1440,
truncated.  Money and bin edges are rationals (pandas uses floats; no
claim here depends on rounding). -/

/-- Leading decimal digits of a character list, together with the rest. -/
def takeDigits : List Char → List Char × List Char
  | [] => ([], [])
  | c :: cs =>
    if c.isDigit then
      let p := takeDigits cs
      (c :: p.1, p.2)
    else ([], c :: cs)

/-- Numeric value of a digit run. -/
def natOfDigits (ds : List Char) : ℕ :=
  ds.foldl (fun a c => 10 * a + (c.toNat - 48)) 0

/-- Gregorian leap-year test, as in Python's `calendar.isleap`. -/
def isLeapYear (y : ℕ) : Bool :=
  (y % 4 == 0 && y % 100 != 0) || y % 400 == 0

/-- Days in a month of a given year. -/
def daysInMonth (m y : ℕ) : ℕ :=
  if m = 2 then (if isLeapYear y then 29 else 28)
  else if m = 4 ∨ m = 6 ∨ m = 9 ∨ m = 11 then 30
  else 31

/-- Days in the months of year `y` strictly before month `m`. -/
def daysBeforeMonth (m y : ℕ) : ℕ :=
  (List.range (m - 1)).foldl (fun a i => a + daysInMonth (i + 1) y) 0

/-- Days in the years strictly before year `y` (year 1 is the epoch, as in
Python's `date.toordinal`). -/
def daysBeforeYear (y : ℕ) : ℕ :=
  365 * (y - 1) + (y - 1) / 4 - (y - 1) / 100 + (y - 1) / 400

/-- Minutes-since-epoch encoding of a calendar timestamp. -/
def toMinutes (y m d h mi : ℕ) : ℕ :=
  (daysBeforeYear y + daysBeforeMonth m y + (d - 1)) * 1440 + h * 60 + mi

/-- Embedding of `pd.to_datetime(s, format='%d/%m/%Y %H:%M', errors='coerce')`
for one string: day and month are 1-2 digits, the year exactly 4 digits
(the `%Y` pattern of CPython's `_strptime`, which pandas follows), hour and
minute 1-2 digits bounded by 23 and 59, the whole string consumed; the
resulting calendar date must exist (month and day-of-month in range,
year at least 1), else the value is coerced to null (`none`). -/
def parseTimestamp (s : String) : Option ℕ :=
  let p1 := takeDigits s.toList
  match p1.2 with
  | '/' :: r1 =>
    let p2 := takeDigits r1
    match p2.2 with
    | '/' :: r2 =>
      let p3 := takeDigits r2
      match p3.2 with
      | ' ' :: r3 =>
        let p4 := takeDigits r3
        match p4.2 with
        | ':' :: r4 =>
          let p5 := takeDigits r4
          match p5.2 with
          | [] =>
            let d := natOfDigits p1.1
            let m := natOfDigits p2.1
            let y := natOfDigits p3.1
            let h := natOfDigits p4.1
            let mi := natOfDigits p5.1
            if 1 ≤ p1.1.length ∧ p1.1.length ≤ 2 ∧
                1 ≤ p2.1.length ∧ p2.1.length ≤ 2 ∧ p3.1.length = 4 ∧
                1 ≤ p4.1.length ∧ p4.1.length ≤ 2 ∧
                1 ≤ p5.1.length ∧ p5.1.length ≤ 2 ∧
                1 ≤ y ∧ 1 ≤ m ∧ m ≤ 12 ∧ 1 ≤ d ∧ d ≤ daysInMonth m y ∧
                h ≤ 23 ∧ mi ≤ 59 then
              some (toMinutes y m d h mi)
            else none
          | _ => none
        | _ => none
      | _ => none
    | _ => none
  | _ => none

/-- Raw row of `Online_Retail.csv`, with the columns the pipeline touches:
`Customer ID` (nullable), `Invoice`, `Quantity`, `Price`, `InvoiceDate`
(still a string). -/
structure TransactionRecord where
  customerId : Option ℕ
  invoice : String
  quantity : ℤ
  price : ℚ
  invoiceDate : String
deriving DecidableEq

/-- Row surviving the cleaning stage: customer id present, positive quantity
and price, `TotalSales` (revenue) computed, timestamp parsed to minutes. -/
structure CleanTransaction where
  customerId : ℕ
  invoice : String
  quantity : ℤ
  price : ℚ
  revenue : ℚ
  date : ℕ
deriving DecidableEq

/-- STEP 2 of the script: drop rows with a missing `Customer ID`, drop
`Quantity <= 0` and `Price <= 0`, compute `TotalSales = Quantity * Price`,
parse `InvoiceDate` coercing failures to null and drop those rows.  (The
script computes `TotalSales` before parsing dates; revenue of a row that is
dropped afterwards is never observable, so the composition is the same.) -/
def df_clean (records : List TransactionRecord) : List CleanTransaction :=
  let step1 := records.filter (fun r => r.customerId.isSome)
  let step2 := step1.filter (fun r => decide (0 < r.quantity))
  let step3 := step2.filter (fun r => decide (0 < r.price))
  step3.filterMap (fun r =>
    match r.customerId, parseTimestamp r.invoiceDate with
    | some cid, some d =>
        some ⟨cid, r.invoice, r.quantity, r.price, (r.quantity : ℚ) * r.price, d⟩
    | _, _ => none)

/-- Maximum of a list of naturals (`pandas` `.max()`; `0` for the empty
series, where pandas would give `NaT` -- only reached on empty input). -/
def listMaxN (l : List ℕ) : ℕ := l.foldl max 0

/-- One row of the aggregated `rfm` table. -/
structure CustomerMetrics where
  customerId : ℕ
  Recency : ℕ
  Frequency : ℕ
  Monetary : ℚ
deriving DecidableEq

/-- Snapshot date: day after the last transaction in the dataset
(`df_clean['InvoiceDate'].max() + pd.Timedelta(days=1)`). -/
def snapshot_date (ts : List CleanTransaction) : ℕ :=
  listMaxN (ts.map (fun t => t.date)) + 1440

/-- Transactions of one customer (one group of `groupby('Customer ID')`). -/
def custTrans (ts : List CleanTransaction) (cid : ℕ) : List CleanTransaction :=
  ts.filter (fun t => t.customerId == cid)

/-- STEP 3 of the script: group the cleaned rows by customer and aggregate
`Recency = (snapshot_date - InvoiceDate.max()).days`,
`Frequency = Invoice.nunique()`, `Monetary = TotalSales.sum()`.
(`groupby` sorts the group keys; only the row order differs from taking
the distinct customer ids in order of appearance, which no claim
observes.) -/
def rfm (ts : List CleanTransaction) : List CustomerMetrics :=
  let snap := snapshot_date ts
  ((ts.map (fun t => t.customerId)).dedup).map (fun cid =>
    let grp := custTrans ts cid
    { customerId := cid
      Recency := (snap - listMaxN (grp.map (fun t => t.date))) / 1440
      Frequency := ((grp.map (fun t => t.invoice)).dedup).length
      Monetary := (grp.map (fun t => t.revenue)).sum })

/-- Minimum of a list of rationals, as `pandas` `.min()` (`0` only for the
empty series, which is unreachable behind the non-empty guard). -/
def listMinQ : List ℚ → ℚ
  | [] => 0
  | x :: xs => xs.foldl min x

/-- Maximum of a list of rationals, as `pandas` `.max()`. -/
def listMaxQ : List ℚ → ℚ
  | [] => 0
  | x :: xs => xs.foldl max x

/-- Ascending sort of the sample, as `numpy` sorts before taking
percentiles (values are plain rationals, so any sort gives this list). -/
def sortedQ (xs : List ℚ) : List ℚ := List.insertionSort (fun a b => a ≤ b) xs

/-- Linear-interpolation quantile of a sample, the default interpolation of
`Series.quantile` and `np.percentile`: at rank `h = p * (n - 1)` the value
is `ys[floor h] + (h - floor h) * (ys[floor h + 1] - ys[floor h])` over the
ascending sort `ys`. -/
def quantile (xs : List ℚ) (p : ℚ) : ℚ :=
  let ys := sortedQ xs
  let n := ys.length
  let h : ℚ := p * ((n : ℚ) - 1)
  let i : ℕ := h.floor.toNat
  if i + 1 < n then
    ys.getD i 0 + (h - (i : ℚ)) * (ys.getD (i + 1) 0 - ys.getD i 0)
  else ys.getD (n - 1) 0

/-- Number of bin edges strictly below a value: `np.searchsorted(bins, v,
side='left')` for the sorted edge lists that reach it (every `pd.cut` /
`pd.qcut` call checks edge monotonicity first). -/
def searchCount (edges : List ℚ) (v : ℚ) : ℕ :=
  (edges.filter (fun e => decide (e < v))).length

/-- Core of pandas `_bins_to_cuts` for right-closed intervals with
`include_lowest=True`: index by searchsorted, pull a value equal to the
lowest edge into the first bucket, and send out-of-range values (index `0`
or past the last edge) to null. -/
def bucketAssign (edges : List ℚ) (labels : List ℕ) (v : ℚ) : Option ℕ :=
  let c0 := searchCount edges v
  let c := if v = edges.getD 0 0 then 1 else c0
  if c = 0 ∨ c = edges.length then none
  else some (labels.getD (c - 1) 0)

/-- Adjacent edges strictly increasing.  `pd.qcut` rejects duplicate edges
(`np.unique(bins)` shorter than `bins`); quantile edges are ascending, so
duplicates exist exactly when some adjacent pair fails to increase. -/
def chainLtB : List ℚ → Bool
  | [] => true
  | [_] => true
  | a :: b :: rest => decide (a < b) && chainLtB (b :: rest)

/-- Adjacent edges non-decreasing: the `pd.cut` guard, which raises
`bins must increase monotonically` exactly when some adjacent difference
is negative (equal adjacent edges pass). -/
def monoB : List ℚ → Bool
  | [] => true
  | [_] => true
  | a :: b :: rest => decide (a ≤ b) && monoB (b :: rest)

/-- Quartile edges of a sample: its 0th/25th/50th/75th/100th percentiles,
as computed by `pd.qcut(x, q=4)`. -/
def rfmEdges (values : List ℚ) : List ℚ :=
  [quantile values 0, quantile values (1/4), quantile values (1/2),
   quantile values (3/4), quantile values 1]

/-- Embedding of `pd.qcut(values, q=4, labels=labels)`: quartile edges,
failure on duplicate edges, otherwise right-closed bucket assignment. -/
def qcut4 (values : List ℚ) (labels : List ℕ) : Option (List (Option ℕ)) :=
  let edges := rfmEdges values
  if chainLtB edges then some (values.map (bucketAssign edges labels)) else none

/-- Embedding of `pd.cut(values, bins=edges, labels=labels,
include_lowest=True)`: failure on decreasing edges, otherwise right-closed
bucket assignment. -/
def pdCut (values : List ℚ) (edges : List ℚ) (labels : List ℕ) :
    Option (List (Option ℕ)) :=
  if monoB edges then some (values.map (bucketAssign edges labels)) else none

/-- Collapse a column of optional scores, failing on the first null.  This
models the fillna loop of STEP 4: the loop body runs only when the column
has a null, and its `rfm[column].median()` is a reduction over a
categorical column, which pandas refuses with a `TypeError` -- so a column
that still contains a null is fatal, and otherwise the loop is a no-op. -/
def allSome : List (Option ℕ) → Option (List ℕ)
  | [] => some []
  | none :: _ => none
  | some x :: rest => (allSome rest).map (fun xs => x :: xs)

/-- Fixed frequency bin edges of the script:
`[Frequency.min() - 1, 1, 2, 3, Frequency.max()]`. -/
def freqBins (pop : List CustomerMetrics) : List ℚ :=
  [listMinQ (pop.map (fun c => (c.Frequency : ℚ))) - 1, 1, 2, 3,
   listMaxQ (pop.map (fun c => (c.Frequency : ℚ)))]

/-- Monetary bin edges of the script: `[Monetary.min() - 1,
Monetary.quantile(0.25), Monetary.quantile(0.5), Monetary.quantile(0.75),
Monetary.max()]`. -/
def monetaryBins (pop : List CustomerMetrics) : List ℚ :=
  [listMinQ (pop.map (fun c => c.Monetary)) - 1,
   quantile (pop.map (fun c => c.Monetary)) (1/4),
   quantile (pop.map (fun c => c.Monetary)) (1/2),
   quantile (pop.map (fun c => c.Monetary)) (3/4),
   listMaxQ (pop.map (fun c => c.Monetary))]

/-- Aggregated row together with its three resolved scores. -/
structure ScoredCustomer where
  metrics : CustomerMetrics
  rScore : ℕ
  fScore : ℕ
  mScore : ℕ
deriving DecidableEq

/-- Pair each customer with the three score columns (columns of the same
table, so the lists run in lockstep). -/
def zipScores : List CustomerMetrics → List ℕ → List ℕ → List ℕ →
    List ScoredCustomer
  | c :: cs, r :: rs, f :: fs, m :: ms => ⟨c, r, f, m⟩ :: zipScores cs rs fs ms
  | _, _, _, _ => []

/-- STEP 4 of the script: `R_Score = pd.qcut(Recency, 4, labels=[4,3,2,1])`,
`F_Score = pd.cut(Frequency, freq_bins, labels=[1,2,3,4],
include_lowest=True)`, `M_Score` likewise over `monetary_bins`, then the
fillna loop.  A raise anywhere (duplicate quartile edges, decreasing cut
edges, a reduction over a categorical column in the fillna body, quantiles
of an empty population) makes the stage fail (`none`). -/
def assignScores (pop : List CustomerMetrics) : Option (List ScoredCustomer) :=
  if pop.isEmpty then none
  else
    match qcut4 (pop.map (fun c => (c.Recency : ℚ))) [4, 3, 2, 1] with
    | none => none
    | some rCol =>
      match pdCut (pop.map (fun c => (c.Frequency : ℚ))) (freqBins pop)
          [1, 2, 3, 4] with
      | none => none
      | some fCol =>
        match pdCut (pop.map (fun c => c.Monetary)) (monetaryBins pop)
            [1, 2, 3, 4] with
        | none => none
        | some mCol =>
          match allSome rCol with
          | none => none
          | some rs =>
            match allSome fCol with
            | none => none
            | some fs =>
              match allSome mCol with
              | none => none
              | some ms => some (zipScores pop rs fs ms)

/-- STEP 5 of the script: the ordered rule list mapping a score triple to a
customer group, first match wins. -/
def get_segment (r_score f_score m_score : ℕ) : String :=
  if r_score = 4 ∧ f_score = 4 ∧ m_score = 4 then "Champions"
  else if r_score = 4 ∧ f_score ≥ 3 then "Loyal Customers"
  else if r_score = 4 ∧ f_score = 1 then "New Customers"
  else if r_score = 3 then "Potential Loyalists"
  else if r_score = 2 then "At Risk Customers"
  else if r_score = 1 ∧ f_score ≥ 2 then "Cant Lose Them"
  else if r_score = 1 then "Lost Customers"
  else "Others"

/-- Fixed set of the eight group labels. -/
def customerGroups : List String :=
  ["Champions", "Loyal Customers", "New Customers", "Potential Loyalists",
   "At Risk Customers", "Cant Lose Them", "Lost Customers", "Others"]

/-! Helper lemmas about the list folds and about the quantile / bucket
machinery, shared by the claim theorems. -/

theorem foldl_min_le (l : List ℚ) : ∀ a : ℚ,
    l.foldl min a ≤ a ∧ ∀ x ∈ l, l.foldl min a ≤ x := by
  induction l with
  | nil => intro a; simp
  | cons y t ih =>
    intro a
    have h := ih (min a y)
    refine ⟨h.1.trans (min_le_left a y), ?_⟩
    intro x hx
    rcases List.mem_cons.mp hx with h1 | h1
    · exact h1 ▸ h.1.trans (min_le_right a y)
    · exact h.2 x h1

theorem listMinQ_le {l : List ℚ} {x : ℚ} (hx : x ∈ l) : listMinQ l ≤ x := by
  cases l with
  | nil => cases hx
  | cons y t =>
    rcases List.mem_cons.mp hx with h1 | h1
    · exact h1 ▸ (foldl_min_le t y).1
    · exact (foldl_min_le t y).2 x h1

theorem le_foldl_max (l : List ℚ) : ∀ a : ℚ,
    a ≤ l.foldl max a ∧ ∀ x ∈ l, x ≤ l.foldl max a := by
  induction l with
  | nil => intro a; simp
  | cons y t ih =>
    intro a
    have h := ih (max a y)
    refine ⟨(le_max_left a y).trans h.1, ?_⟩
    intro x hx
    rcases List.mem_cons.mp hx with h1 | h1
    · exact h1 ▸ (le_max_right a y).trans h.1
    · exact h.2 x h1

theorem le_listMaxQ {l : List ℚ} {x : ℚ} (hx : x ∈ l) : x ≤ listMaxQ l := by
  cases l with
  | nil => cases hx
  | cons y t =>
    rcases List.mem_cons.mp hx with h1 | h1
    · exact h1 ▸ (le_foldl_max t y).1
    · exact (le_foldl_max t y).2 x h1

theorem le_foldl_min (t : List ℚ) : ∀ a b : ℚ, a ≤ b → (∀ x ∈ t, a ≤ x) →
    a ≤ t.foldl min b := by
  induction t with
  | nil => intro a b hab _; simpa using hab
  | cons z t ih =>
    intro a b hab h
    exact ih a (min b z) (le_min hab (h z (by simp))) fun x hx => h x (by simp [hx])

theorem le_listMinQ {l : List ℚ} {a : ℚ} (hne : l ≠ [])
    (h : ∀ x ∈ l, a ≤ x) : a ≤ listMinQ l := by
  cases l with
  | nil => exact absurd rfl hne
  | cons y t =>
    exact le_foldl_min t a y (h y (by simp)) fun x hx => h x (by simp [hx])

theorem le_foldl_maxN (l : List ℕ) : ∀ a : ℕ,
    a ≤ l.foldl max a ∧ ∀ x ∈ l, x ≤ l.foldl max a := by
  induction l with
  | nil => intro a; simp
  | cons y t ih =>
    intro a
    have h := ih (max a y)
    refine ⟨(le_max_left a y).trans h.1, ?_⟩
    intro x hx
    rcases List.mem_cons.mp hx with h1 | h1
    · exact h1 ▸ (le_max_right a y).trans h.1
    · exact h.2 x h1

theorem le_listMaxN {l : List ℕ} {x : ℕ} (hx : x ∈ l) : x ≤ listMaxN l :=
  (le_foldl_maxN l 0).2 x hx

theorem foldl_maxN_le (l : List ℕ) : ∀ a b : ℕ, a ≤ b → (∀ x ∈ l, x ≤ b) →
    l.foldl max a ≤ b := by
  induction l with
  | nil => intro a b hab _; simpa using hab
  | cons y t ih =>
    intro a b hab h
    exact ih (max a y) b (max_le hab (h y (by simp))) fun x hx => h x (by simp [hx])

theorem listMaxN_le {l : List ℕ} {b : ℕ} (h : ∀ x ∈ l, x ≤ b) :
    listMaxN l ≤ b :=
  foldl_maxN_le l 0 b (Nat.zero_le b) h

theorem sorted_head_le {ys : List ℚ} (hs : ys.Sorted (fun a b => a ≤ b))
    {v : ℚ} (hv : v ∈ ys) : ys.getD 0 0 ≤ v := by
  cases ys with
  | nil => cases hv
  | cons a t =>
    rcases List.mem_cons.mp hv with h1 | h1
    · simp [h1]
    · simpa using (List.sorted_cons.mp hs).1 v h1

theorem le_sorted_last (ys : List ℚ) (hs : ys.Sorted (fun a b => a ≤ b)) :
    ∀ v ∈ ys, v ≤ ys.getD (ys.length - 1) 0 := by
  induction ys with
  | nil => intro v hv; cases hv
  | cons a t ih =>
    intro v hv
    cases t with
    | nil =>
      rcases List.mem_cons.mp hv with h1 | h1
      · simp [h1]
      · cases h1
    | cons b t' =>
      have hlen : (a :: b :: t').length - 1 = (b :: t').length := by simp
      rw [hlen]
      have hgd : (a :: b :: t').getD (b :: t').length 0 =
          (b :: t').getD ((b :: t').length - 1) 0 := by
        simp [List.getD_cons_succ]
      rw [hgd]
      have hs' : (b :: t').Sorted (fun a b => a ≤ b) :=
        (List.sorted_cons.mp hs).2
      rcases List.mem_cons.mp hv with h1 | h1
      · have hb : b ≤ (b :: t').getD ((b :: t').length - 1) 0 :=
          ih hs' b (by simp)
        have hab : a ≤ b := (List.sorted_cons.mp hs).1 b (by simp)
        exact h1 ▸ hab.trans hb
      · exact ih hs' v h1

theorem sortedQ_sorted (xs : List ℚ) : (sortedQ xs).Sorted (fun a b => a ≤ b) :=
  List.sorted_insertionSort (fun a b => a ≤ b) xs

theorem mem_sortedQ {xs : List ℚ} {v : ℚ} (hv : v ∈ xs) : v ∈ sortedQ xs :=
  (List.perm_insertionSort (fun a b => a ≤ b) xs).mem_iff.mpr hv

theorem ratFloor_eq_intFloor (q : ℚ) : q.floor = ⌊q⌋ := by
  rw [Rat.floor_def', ← Rat.floor_def]

theorem quantile_zero_le {xs : List ℚ} {v : ℚ} (hv : v ∈ xs) :
    quantile xs 0 ≤ v := by
  have hmem := mem_sortedQ hv
  have hs := sortedQ_sorted xs
  have hhead := sorted_head_le hs hmem
  unfold quantile
  dsimp only
  have h0 : ((0 : ℚ) * (((sortedQ xs).length : ℚ) - 1)) = 0 := by ring
  rw [h0]
  have hfl : ((0 : ℚ).floor).toNat = 0 := by
    rw [ratFloor_eq_intFloor]
    simp
  rw [hfl]
  split
  · simpa using hhead
  · rename_i hn
    have hn1 : (sortedQ xs).length = 1 := by
      have hpos : 0 < (sortedQ xs).length := List.length_pos.mpr (by
        intro hnil; rw [hnil] at hmem; cases hmem)
      omega
    rw [hn1]
    simpa using hhead

theorem le_quantile_one {xs : List ℚ} {v : ℚ} (hv : v ∈ xs) :
    v ≤ quantile xs 1 := by
  have hmem := mem_sortedQ hv
  have hs := sortedQ_sorted xs
  have hlast := le_sorted_last (sortedQ xs) hs v hmem
  unfold quantile
  dsimp only
  have hpos : 0 < (sortedQ xs).length := List.length_pos.mpr (by
    intro hnil; rw [hnil] at hmem; cases hmem)
  have h1 : ((1 : ℚ) * (((sortedQ xs).length : ℚ) - 1)) =
      ((((sortedQ xs).length - 1 : ℕ) : ℤ) : ℚ) := by
    push_cast [Nat.cast_sub hpos]
    ring
  rw [h1, ratFloor_eq_intFloor, Int.floor_intCast]
  have h2 : (((sortedQ xs).length - 1 : ℕ) : ℤ).toNat = (sortedQ xs).length - 1 := by
    omega
  rw [h2]
  split
  · rename_i hlt
    omega
  · exact hlast

theorem searchCount_cons (e : ℚ) (es : List ℚ) (v : ℚ) :
    searchCount (e :: es) v = (if e < v then 1 else 0) + searchCount es v := by
  by_cases h : e < v
  · simp [searchCount, List.filter_cons, h, Nat.add_comm]
  · simp [searchCount, List.filter_cons, h]

theorem searchCount_nil (v : ℚ) : searchCount [] v = 0 := rfl

theorem searchCount_five (e0 e1 e2 e3 e4 v : ℚ) :
    searchCount [e0, e1, e2, e3, e4] v =
      (if e0 < v then 1 else 0) + ((if e1 < v then 1 else 0) +
      ((if e2 < v then 1 else 0) + ((if e3 < v then 1 else 0) +
      (if e4 < v then 1 else 0)))) := by
  rw [searchCount_cons, searchCount_cons, searchCount_cons, searchCount_cons,
    searchCount_cons, searchCount_nil]
  simp

/-- Behaviour of one `pd.cut`-style bucket assignment over five
non-decreasing edges when the value lies in range: the result is never
null, and is the label of the first right-closed quartile interval
containing the value. -/
theorem bucketAssign_five (e0 e1 e2 e3 e4 v : ℚ) (l1 l2 l3 l4 : ℕ)
    (h01 : e0 ≤ e1) (h12 : e1 ≤ e2) (h23 : e2 ≤ e3) (h34 : e3 ≤ e4)
    (hlo : e0 ≤ v) (hhi : v ≤ e4) :
    bucketAssign [e0, e1, e2, e3, e4] [l1, l2, l3, l4] v =
      some (if v ≤ e1 then l1 else if v ≤ e2 then l2
            else if v ≤ e3 then l3 else l4) := by
  have hgd0 : ([e0, e1, e2, e3, e4].getD 0 0 : ℚ) = e0 := rfl
  unfold bucketAssign
  dsimp only
  rw [hgd0, searchCount_five]
  by_cases hv0 : v = e0
  · have hb1 : v ≤ e1 := hv0 ▸ h01
    rw [if_pos hv0, if_pos hb1]
    simp
  · rw [if_neg hv0]
    have he0 : e0 < v := lt_of_le_of_ne hlo (Ne.symm hv0)
    rw [if_pos he0]
    by_cases hb1 : v ≤ e1
    · rw [if_neg (not_lt.mpr hb1),
        if_neg (not_lt.mpr (hb1.trans h12)),
        if_neg (not_lt.mpr ((hb1.trans h12).trans h23)),
        if_neg (not_lt.mpr (((hb1.trans h12).trans h23).trans h34)),
        if_pos hb1]
      simp
    · rw [if_pos (not_le.mp hb1), if_neg hb1]
      by_cases hb2 : v ≤ e2
      · rw [if_neg (not_lt.mpr hb2),
          if_neg (not_lt.mpr (hb2.trans h23)),
          if_neg (not_lt.mpr ((hb2.trans h23).trans h34)),
          if_pos hb2]
        simp
      · rw [if_pos (not_le.mp hb2), if_neg hb2]
        by_cases hb3 : v ≤ e3
        · rw [if_neg (not_lt.mpr hb3),
            if_neg (not_lt.mpr (hb3.trans h34)),
            if_pos hb3]
          simp
        · rw [if_pos (not_le.mp hb3), if_neg (not_lt.mpr hhi), if_neg hb3]
          simp

theorem allSome_map {α : Type} (g : α → Option ℕ) : ∀ (l : List α) (xs : List ℕ),
    allSome (l.map g) = some xs →
      xs = l.map (fun a => (g a).getD 0) ∧ ∀ a ∈ l, (g a).isSome = true := by
  intro l
  induction l with
  | nil => intro xs h; simp [allSome] at h; simp [h.symm]
  | cons a t ih =>
    intro xs h
    rw [List.map_cons] at h
    cases hga : g a with
    | none => rw [hga] at h; simp [allSome] at h
    | some x =>
      rw [hga] at h
      unfold allSome at h
      rcases Option.map_eq_some'.mp h with ⟨xs', hxs', hx⟩
      rcases ih xs' hxs' with ⟨h1, h2⟩
      constructor
      · rw [← hx, h1, List.map_cons, hga]
        rfl
      · intro b hb
        rcases List.mem_cons.mp hb with h3 | h3
        · rw [h3, hga]; rfl
        · exact h2 b h3

theorem zipScores_maps (f1 f2 f3 : CustomerMetrics → ℕ) : ∀ l : List CustomerMetrics,
    zipScores l (l.map f1) (l.map f2) (l.map f3) =
      l.map (fun c => ⟨c, f1 c, f2 c, f3 c⟩) := by
  intro l
  induction l with
  | nil => rfl
  | cons c t ih => simp only [List.map_cons, zipScores, ih]

/-- Success shape of the scoring stage: when STEP 4 completes, all three
monotonicity checks passed, every customer received a (non-null) score from
every binning -- so the fillna fallback had nothing to fill -- and the
output table pairs each customer with the three bucket labels. -/
theorem assignScores_shape (pop : List CustomerMetrics)
    (res : List ScoredCustomer) (h : assignScores pop = some res) :
    chainLtB (rfmEdges (pop.map (fun c => (c.Recency : ℚ)))) = true ∧
    monoB (freqBins pop) = true ∧
    monoB (monetaryBins pop) = true ∧
    (∀ c ∈ pop,
      (bucketAssign (rfmEdges (pop.map (fun c' => (c'.Recency : ℚ))))
          [4, 3, 2, 1] (c.Recency : ℚ)).isSome = true ∧
      (bucketAssign (freqBins pop) [1, 2, 3, 4] (c.Frequency : ℚ)).isSome = true ∧
      (bucketAssign (monetaryBins pop) [1, 2, 3, 4] c.Monetary).isSome = true) ∧
    res = pop.map (fun c =>
      ⟨c, (bucketAssign (rfmEdges (pop.map (fun c' => (c'.Recency : ℚ))))
        [4, 3, 2, 1] (c.Recency : ℚ)).getD 0,
        (bucketAssign (freqBins pop) [1, 2, 3, 4] (c.Frequency : ℚ)).getD 0,
        (bucketAssign (monetaryBins pop) [1, 2, 3, 4] c.Monetary).getD 0⟩) := by
  unfold assignScores at h
  by_cases hpop : pop.isEmpty
  · rw [if_pos hpop] at h; cases h
  rw [if_neg hpop] at h
  cases hq : qcut4 (pop.map (fun c => (c.Recency : ℚ))) [4, 3, 2, 1] with
  | none => rw [hq] at h; cases h
  | some rCol =>
  rw [hq] at h
  cases hf : pdCut (pop.map (fun c => (c.Frequency : ℚ))) (freqBins pop)
      [1, 2, 3, 4] with
  | none => rw [hf] at h; cases h
  | some fCol =>
  rw [hf] at h
  cases hm : pdCut (pop.map (fun c => c.Monetary)) (monetaryBins pop)
      [1, 2, 3, 4] with
  | none => rw [hm] at h; cases h
  | some mCol =>
  rw [hm] at h
  dsimp only at h
  -- extract the check results and the column contents
  unfold qcut4 at hq
  dsimp only at hq
  unfold pdCut at hf hm
  by_cases hchain : chainLtB (rfmEdges (pop.map (fun c => (c.Recency : ℚ))))
  · rw [if_pos hchain] at hq
    by_cases hmonoF : monoB (freqBins pop)
    · rw [if_pos hmonoF] at hf
      by_cases hmonoM : monoB (monetaryBins pop)
      · rw [if_pos hmonoM] at hm
        have hrCol : rCol = pop.map
            (bucketAssign (rfmEdges (pop.map (fun c => (c.Recency : ℚ))))
              [4, 3, 2, 1] ∘ fun c => (c.Recency : ℚ)) := by
          have := Option.some.inj hq
          rw [← this, List.map_map]
        have hfCol : fCol = pop.map
            (bucketAssign (freqBins pop) [1, 2, 3, 4] ∘
              fun c => (c.Frequency : ℚ)) := by
          have := Option.some.inj hf
          rw [← this, List.map_map]
        have hmCol : mCol = pop.map
            (bucketAssign (monetaryBins pop) [1, 2, 3, 4] ∘
              fun c => c.Monetary) := by
          have := Option.some.inj hm
          rw [← this, List.map_map]
        rw [hrCol] at h
        cases hra : allSome (pop.map
            (bucketAssign (rfmEdges (pop.map (fun c => (c.Recency : ℚ))))
              [4, 3, 2, 1] ∘ fun c => (c.Recency : ℚ))) with
        | none => rw [hra] at h; cases h
        | some rs =>
        rw [hra] at h
        dsimp only at h
        rw [hfCol] at h
        cases hfa : allSome (pop.map
            (bucketAssign (freqBins pop) [1, 2, 3, 4] ∘
              fun c => (c.Frequency : ℚ))) with
        | none => rw [hfa] at h; cases h
        | some fs =>
        rw [hfa] at h
        dsimp only at h
        rw [hmCol] at h
        cases hma : allSome (pop.map
            (bucketAssign (monetaryBins pop) [1, 2, 3, 4] ∘
              fun c => c.Monetary)) with
        | none => rw [hma] at h; cases h
        | some ms =>
        rw [hma] at h
        dsimp only at h
        have hres : res = zipScores pop rs fs ms := (Option.some.inj h).symm
        rcases allSome_map _ pop rs hra with ⟨hrs, hrsome⟩
        rcases allSome_map _ pop fs hfa with ⟨hfs, hfsome⟩
        rcases allSome_map _ pop ms hma with ⟨hms, hmsome⟩
        refine ⟨hchain, hmonoF, hmonoM, ?_, ?_⟩
        · intro c hc
          exact ⟨hrsome c hc, hfsome c hc, hmsome c hc⟩
        · rw [hres, hrs, hfs, hms]
          have := zipScores_maps
            (fun c => (bucketAssign (rfmEdges (pop.map (fun c' => (c'.Recency : ℚ))))
              [4, 3, 2, 1] (c.Recency : ℚ)).getD 0)
            (fun c => (bucketAssign (freqBins pop) [1, 2, 3, 4]
              (c.Frequency : ℚ)).getD 0)
            (fun c => (bucketAssign (monetaryBins pop) [1, 2, 3, 4]
              c.Monetary).getD 0) pop
          exact this
      · rw [if_neg hmonoM] at hm; cases hm
    · rw [if_neg hmonoF] at hf; cases hf
  · rw [if_neg hchain] at hq
    cases hq

theorem monoB_five {a b c d e : ℚ} (h : monoB [a, b, c, d, e] = true) :
    a ≤ b ∧ b ≤ c ∧ c ≤ d ∧ d ≤ e := by
  simp [monoB] at h
  exact ⟨h.1, h.2.1, h.2.2.1, h.2.2.2⟩

theorem chainLtB_five {a b c d e : ℚ} (h : chainLtB [a, b, c, d, e] = true) :
    a < b ∧ b < c ∧ c < d ∧ d < e := by
  simp [chainLtB] at h
  exact ⟨h.1, h.2.1, h.2.2.1, h.2.2.2⟩

/-- Resolved Frequency score of any output row: right-closed buckets at the
fixed edges 1, 2, 3. -/
theorem fScore_char (pop : List CustomerMetrics) (res : List ScoredCustomer)
    (h : assignScores pop = some res) (sc : ScoredCustomer) (hsc : sc ∈ res) :
    sc.fScore = (if (sc.metrics.Frequency : ℚ) ≤ 1 then 1
      else if (sc.metrics.Frequency : ℚ) ≤ 2 then 2
      else if (sc.metrics.Frequency : ℚ) ≤ 3 then 3 else 4) := by
  rcases assignScores_shape pop res h with ⟨_, hF, _, _, hres⟩
  rw [hres] at hsc
  rcases List.mem_map.mp hsc with ⟨c, hc, hceq⟩
  rw [← hceq]
  simp only
  simp only [freqBins] at hF ⊢
  rcases monoB_five hF with ⟨h1, h2, h3, h4⟩
  have hmin : listMinQ (pop.map (fun c' => (c'.Frequency : ℚ))) ≤
      (c.Frequency : ℚ) :=
    listMinQ_le (List.mem_map_of_mem _ hc)
  have hmax : (c.Frequency : ℚ) ≤
      listMaxQ (pop.map (fun c' => (c'.Frequency : ℚ))) :=
    le_listMaxQ (List.mem_map_of_mem _ hc)
  rw [bucketAssign_five _ _ _ _ _ _ _ _ _ _ h1 h2 h3 h4
    (by linarith) hmax]
  rfl

/-- Resolved Monetary score of any output row: right-closed buckets at the
25th/50th/75th percentile edges of the population's Monetary values. -/
theorem mScore_char (pop : List CustomerMetrics) (res : List ScoredCustomer)
    (h : assignScores pop = some res) (sc : ScoredCustomer) (hsc : sc ∈ res) :
    sc.mScore = (if sc.metrics.Monetary ≤
        quantile (pop.map (fun c => c.Monetary)) (1/4) then 1
      else if sc.metrics.Monetary ≤
        quantile (pop.map (fun c => c.Monetary)) (1/2) then 2
      else if sc.metrics.Monetary ≤
        quantile (pop.map (fun c => c.Monetary)) (3/4) then 3 else 4) := by
  rcases assignScores_shape pop res h with ⟨_, _, hM, _, hres⟩
  rw [hres] at hsc
  rcases List.mem_map.mp hsc with ⟨c, hc, hceq⟩
  rw [← hceq]
  simp only
  simp only [monetaryBins] at hM ⊢
  rcases monoB_five hM with ⟨h1, h2, h3, h4⟩
  have hmin : listMinQ (pop.map (fun c' => c'.Monetary)) ≤ c.Monetary :=
    listMinQ_le (List.mem_map_of_mem _ hc)
  have hmax : c.Monetary ≤ listMaxQ (pop.map (fun c' => c'.Monetary)) :=
    le_listMaxQ (List.mem_map_of_mem _ hc)
  rw [bucketAssign_five _ _ _ _ _ _ _ _ _ _ h1 h2 h3 h4
    (by linarith) hmax]
  rfl

/-- Resolved Recency score of any output row: right-closed buckets at the
25th/50th/75th percentile edges of the population's Recency values, with
the label order reversed (most recent quartile scores 4). -/
theorem rScore_char (pop : List CustomerMetrics) (res : List ScoredCustomer)
    (h : assignScores pop = some res) (sc : ScoredCustomer) (hsc : sc ∈ res) :
    sc.rScore = (if (sc.metrics.Recency : ℚ) ≤
        quantile (pop.map (fun c => (c.Recency : ℚ))) (1/4) then 4
      else if (sc.metrics.Recency : ℚ) ≤
        quantile (pop.map (fun c => (c.Recency : ℚ))) (1/2) then 3
      else if (sc.metrics.Recency : ℚ) ≤
        quantile (pop.map (fun c => (c.Recency : ℚ))) (3/4) then 2 else 1) := by
  rcases assignScores_shape pop res h with ⟨hR, _, _, _, hres⟩
  rw [hres] at hsc
  rcases List.mem_map.mp hsc with ⟨c, hc, hceq⟩
  rw [← hceq]
  simp only
  simp only [rfmEdges] at hR ⊢
  rcases chainLtB_five hR with ⟨h1, h2, h3, h4⟩
  have hmin : quantile (pop.map (fun c' => (c'.Recency : ℚ))) 0 ≤
      (c.Recency : ℚ) :=
    quantile_zero_le (List.mem_map_of_mem _ hc)
  have hmax : (c.Recency : ℚ) ≤
      quantile (pop.map (fun c' => (c'.Recency : ℚ))) 1 :=
    le_quantile_one (List.mem_map_of_mem _ hc)
  rw [bucketAssign_five _ _ _ _ _ _ _ _ _ _ h1.le h2.le h3.le h4.le
    hmin hmax]
  rfl

/-- C1: over score triples with each component in 1..4, `get_segment`
returns exactly one group from the fixed 8-label set, picked by the first
matching rule of the ordered list (Champions; R=4,F>=3 Loyal; R=4,F=1 New;
R=3 Potential Loyalists; R=2 At Risk; R=1,F>=2 Cant Lose Them; R=1 Lost;
otherwise -- e.g. R=4,F=2 -- Others).  It is a pure total Lean function,
so determinism and totality hold by construction. -/
theorem C1_segment_classifier (r f m : ℕ)
    (hr1 : 1 ≤ r) (hr4 : r ≤ 4) (hf1 : 1 ≤ f) (hf4 : f ≤ 4)
    (hm1 : 1 ≤ m) (hm4 : m ≤ 4) :
    get_segment r f m ∈ customerGroups ∧
    (r = 4 ∧ f = 4 ∧ m = 4 → get_segment r f m = "Champions") ∧
    (r = 4 ∧ 3 ≤ f ∧ ¬(f = 4 ∧ m = 4) → get_segment r f m = "Loyal Customers") ∧
    (r = 4 ∧ f = 1 → get_segment r f m = "New Customers") ∧
    (r = 3 → get_segment r f m = "Potential Loyalists") ∧
    (r = 2 → get_segment r f m = "At Risk Customers") ∧
    (r = 1 ∧ 2 ≤ f → get_segment r f m = "Cant Lose Them") ∧
    (r = 1 ∧ f = 1 → get_segment r f m = "Lost Customers") ∧
    (r = 4 ∧ f = 2 → get_segment r f m = "Others") := by
  interval_cases r <;> interval_cases f <;> interval_cases m <;> decide

/-- Witness for C1 at the score triple (4, 2, 3), the explicit
fall-through case of the rule list. -/
theorem C1_segment_classifier_witness :
    get_segment 4 2 3 ∈ customerGroups ∧ get_segment 4 2 3 = "Others" := by
  have h := C1_segment_classifier 4 2 3 (by decide) (by decide) (by decide)
    (by decide) (by decide) (by decide)
  exact ⟨h.1, h.2.2.2.2.2.2.2.2 ⟨rfl, rfl⟩⟩

/-- C2 counterexample: on zero cleaned transactions the aggregation stage
raises nothing and produces the empty customer table -- there is no
empty-input error anywhere in the stage. -/
theorem C2_counterexample : rfm ([] : List CleanTransaction) = [] := rfl

/-- C2 (amended): given zero cleaned transactions, the aggregation stage
silently returns an empty customer table; the run only fails downstream,
when the scoring stage takes quantiles of the empty population. -/
theorem C2_empty_aggregation : rfm ([] : List CleanTransaction) = [] ∧
    assignScores (rfm ([] : List CleanTransaction)) = none := ⟨rfl, rfl⟩

/-- C3 (amended): whenever the scoring stage completes, every customer's
Recency score is determined by right-closed quantile buckets at the
population's 25th/50th/75th Recency percentiles, mapped 4 (most recent
quartile) down to 1, and lies in {1,2,3,4}.  (Bucket populations are only
as equal as ties and interpolation allow, and when the five percentile
edges are not pairwise distinct the stage raises instead of scoring --
see the counterexample.) -/
theorem C3_recency_quartile_scores (pop : List CustomerMetrics)
    (res : List ScoredCustomer) (h : assignScores pop = some res)
    (sc : ScoredCustomer) (hsc : sc ∈ res) :
    sc.rScore = (if (sc.metrics.Recency : ℚ) ≤
        quantile (pop.map (fun c => (c.Recency : ℚ))) (1/4) then 4
      else if (sc.metrics.Recency : ℚ) ≤
        quantile (pop.map (fun c => (c.Recency : ℚ))) (1/2) then 3
      else if (sc.metrics.Recency : ℚ) ≤
        quantile (pop.map (fun c => (c.Recency : ℚ))) (3/4) then 2 else 1) ∧
    sc.rScore ∈ ([1, 2, 3, 4] : List ℕ) := by
  have h1 := rScore_char pop res h sc hsc
  refine ⟨h1, ?_⟩
  rw [h1]
  split_ifs <;> simp

/-- Witness for C3 (amended) on a two-customer population with distinct
Recency values. -/
theorem C3_recency_quartile_scores_witness :
    assignScores [⟨1, 1, 1, 10⟩, ⟨2, 5, 4, 20⟩] =
      some [⟨⟨1, 1, 1, 10⟩, 4, 1, 1⟩, ⟨⟨2, 5, 4, 20⟩, 1, 4, 4⟩] ∧
    (⟨⟨1, 1, 1, 10⟩, 4, 1, 1⟩ : ScoredCustomer).rScore ∈ ([1, 2, 3, 4] : List ℕ) := by
  have heval : assignScores [⟨1, 1, 1, 10⟩, ⟨2, 5, 4, 20⟩] =
      some [⟨⟨1, 1, 1, 10⟩, 4, 1, 1⟩, ⟨⟨2, 5, 4, 20⟩, 1, 4, 4⟩] := by
    norm_num [assignScores, qcut4, pdCut, rfmEdges, quantile, sortedQ, freqBins,
      monetaryBins, listMinQ, listMaxQ, bucketAssign, searchCount, chainLtB,
      monoB, allSome, zipScores, ratFloor_eq_intFloor, List.insertionSort,
      List.orderedInsert]
  exact ⟨heval,
    (C3_recency_quartile_scores _ _ heval _ (List.Mem.head _)).2⟩

/-- C3 counterexample: a population whose Recency values are all equal
(here two customers with Recency 7) collapses the quantile cut points, and
the stage raises -- no customer is assigned any score, contrary to the
claim that a deterministic score is still assigned. -/
theorem C3_counterexample :
    assignScores [⟨1, 7, 1, 10⟩, ⟨2, 7, 2, 20⟩] = none := by
  norm_num [assignScores, qcut4, pdCut, rfmEdges, quantile, sortedQ, freqBins,
    monetaryBins, listMinQ, listMaxQ, bucketAssign, searchCount, chainLtB,
    monoB, allSome, zipScores, ratFloor_eq_intFloor, List.insertionSort,
    List.orderedInsert]

/-- C4: whenever the scoring stage completes, each customer's Frequency
score follows the fixed boundaries, independent of the population:
Frequency 1 scores 1, 2 scores 2, 3 scores 3, and 4 or more scores 4. -/
theorem C4_frequency_fixed_buckets (pop : List CustomerMetrics)
    (res : List ScoredCustomer) (h : assignScores pop = some res)
    (sc : ScoredCustomer) (hsc : sc ∈ res) :
    (sc.metrics.Frequency = 1 → sc.fScore = 1) ∧
    (sc.metrics.Frequency = 2 → sc.fScore = 2) ∧
    (sc.metrics.Frequency = 3 → sc.fScore = 3) ∧
    (4 ≤ sc.metrics.Frequency → sc.fScore = 4) := by
  have hchar := fScore_char pop res h sc hsc
  refine ⟨fun hf => ?_, fun hf => ?_, fun hf => ?_, fun hf => ?_⟩
  · rw [hchar, hf]; norm_num
  · rw [hchar, hf]; norm_num
  · rw [hchar, hf]; norm_num
  · have h4 : (4 : ℚ) ≤ (sc.metrics.Frequency : ℚ) := by exact_mod_cast hf
    rw [hchar, if_neg (by linarith), if_neg (by linarith),
      if_neg (by linarith)]

/-- Witness for C4 on a two-customer population with Frequencies 2 and 4. -/
theorem C4_frequency_fixed_buckets_witness :
    assignScores [⟨1, 1, 2, 10⟩, ⟨2, 5, 4, 20⟩] =
      some [⟨⟨1, 1, 2, 10⟩, 4, 2, 1⟩, ⟨⟨2, 5, 4, 20⟩, 1, 4, 4⟩] ∧
    (⟨⟨1, 1, 2, 10⟩, 4, 2, 1⟩ : ScoredCustomer).fScore = 2 := by
  have heval : assignScores [⟨1, 1, 2, 10⟩, ⟨2, 5, 4, 20⟩] =
      some [⟨⟨1, 1, 2, 10⟩, 4, 2, 1⟩, ⟨⟨2, 5, 4, 20⟩, 1, 4, 4⟩] := by
    norm_num [assignScores, qcut4, pdCut, rfmEdges, quantile, sortedQ, freqBins,
      monetaryBins, listMinQ, listMaxQ, bucketAssign, searchCount, chainLtB,
      monoB, allSome, zipScores, ratFloor_eq_intFloor, List.insertionSort,
      List.orderedInsert]
  exact ⟨heval,
    (C4_frequency_fixed_buckets _ _ heval _ (List.Mem.head _)).2.1 rfl⟩

/-- C5: whenever the scoring stage completes, each customer's Monetary
score is the right-closed quartile bucket of the population's Monetary
values at the 25th/50th/75th percentile boundaries, mapped ascending
(lowest quartile scores 1, highest scores 4), and lies in {1,2,3,4}. -/
theorem C5_monetary_quartile_scores (pop : List CustomerMetrics)
    (res : List ScoredCustomer) (h : assignScores pop = some res)
    (sc : ScoredCustomer) (hsc : sc ∈ res) :
    sc.mScore = (if sc.metrics.Monetary ≤
        quantile (pop.map (fun c => c.Monetary)) (1/4) then 1
      else if sc.metrics.Monetary ≤
        quantile (pop.map (fun c => c.Monetary)) (1/2) then 2
      else if sc.metrics.Monetary ≤
        quantile (pop.map (fun c => c.Monetary)) (3/4) then 3 else 4) ∧
    sc.mScore ∈ ([1, 2, 3, 4] : List ℕ) := by
  have h1 := mScore_char pop res h sc hsc
  refine ⟨h1, ?_⟩
  rw [h1]
  split_ifs <;> simp

/-- Witness for C5 on a two-customer population with Monetary 10 and 40. -/
theorem C5_monetary_quartile_scores_witness :
    assignScores [⟨1, 1, 1, 10⟩, ⟨2, 5, 4, 40⟩] =
      some [⟨⟨1, 1, 1, 10⟩, 4, 1, 1⟩, ⟨⟨2, 5, 4, 40⟩, 1, 4, 4⟩] ∧
    (⟨⟨2, 5, 4, 40⟩, 1, 4, 4⟩ : ScoredCustomer).mScore ∈ ([1, 2, 3, 4] : List ℕ) := by
  have heval : assignScores [⟨1, 1, 1, 10⟩, ⟨2, 5, 4, 40⟩] =
      some [⟨⟨1, 1, 1, 10⟩, 4, 1, 1⟩, ⟨⟨2, 5, 4, 40⟩, 1, 4, 4⟩] := by
    norm_num [assignScores, qcut4, pdCut, rfmEdges, quantile, sortedQ, freqBins,
      monetaryBins, listMinQ, listMaxQ, bucketAssign, searchCount, chainLtB,
      monoB, allSome, zipScores, ratFloor_eq_intFloor, List.insertionSort,
      List.orderedInsert]
  exact ⟨heval,
    (C5_monetary_quartile_scores _ _ heval _
      (List.mem_cons_of_mem _ (List.Mem.head _))).2⟩

/-- C6: whenever the scoring stage completes, every customer received a
non-null score from every binning (the set of customers the median
fallback would have to fill is empty), the output has one row per
customer, and all three resolved scores are integers in {1,2,3,4}. -/
theorem C6_missing_score_fallback (pop : List CustomerMetrics)
    (res : List ScoredCustomer) (h : assignScores pop = some res) :
    res.length = pop.length ∧
    (∀ c ∈ pop,
      (bucketAssign (rfmEdges (pop.map (fun c' => (c'.Recency : ℚ))))
          [4, 3, 2, 1] (c.Recency : ℚ)).isSome = true ∧
      (bucketAssign (freqBins pop) [1, 2, 3, 4] (c.Frequency : ℚ)).isSome = true ∧
      (bucketAssign (monetaryBins pop) [1, 2, 3, 4] c.Monetary).isSome = true) ∧
    ∀ sc ∈ res, sc.rScore ∈ ([1, 2, 3, 4] : List ℕ) ∧
      sc.fScore ∈ ([1, 2, 3, 4] : List ℕ) ∧
      sc.mScore ∈ ([1, 2, 3, 4] : List ℕ) := by
  rcases assignScores_shape pop res h with ⟨_, _, _, hsome, hres⟩
  refine ⟨by rw [hres]; simp, hsome, ?_⟩
  intro sc hsc
  have h1 := rScore_char pop res h sc hsc
  have h2 := fScore_char pop res h sc hsc
  have h3 := mScore_char pop res h sc hsc
  refine ⟨?_, ?_, ?_⟩
  · rw [h1]; split_ifs <;> simp
  · rw [h2]; split_ifs <;> simp
  · rw [h3]; split_ifs <;> simp

/-- Witness for C6 on a two-customer population. -/
theorem C6_missing_score_fallback_witness :
    assignScores [⟨1, 2, 1, 30⟩, ⟨2, 6, 4, 60⟩] =
      some [⟨⟨1, 2, 1, 30⟩, 4, 1, 1⟩, ⟨⟨2, 6, 4, 60⟩, 1, 4, 4⟩] ∧
    ([(⟨⟨1, 2, 1, 30⟩, 4, 1, 1⟩ : ScoredCustomer),
      ⟨⟨2, 6, 4, 60⟩, 1, 4, 4⟩]).length =
      ([(⟨1, 2, 1, 30⟩ : CustomerMetrics), ⟨2, 6, 4, 60⟩]).length := by
  have heval : assignScores [⟨1, 2, 1, 30⟩, ⟨2, 6, 4, 60⟩] =
      some [⟨⟨1, 2, 1, 30⟩, 4, 1, 1⟩, ⟨⟨2, 6, 4, 60⟩, 1, 4, 4⟩] := by
    norm_num [assignScores, qcut4, pdCut, rfmEdges, quantile, sortedQ, freqBins,
      monetaryBins, listMinQ, listMaxQ, bucketAssign, searchCount, chainLtB,
      monoB, allSome, zipScores, ratFloor_eq_intFloor, List.insertionSort,
      List.orderedInsert]
  exact ⟨heval, (C6_missing_score_fallback _ _ heval).1⟩

/-- C7: every aggregated row's Frequency is the number of distinct invoice
identifiers among that customer's cleaned transactions, which is at most
(and in general less than) the number of line items. -/
theorem C7_frequency_distinct_invoices (ts : List CleanTransaction)
    (cm : CustomerMetrics) (h : cm ∈ rfm ts) :
    cm.Frequency =
      ((custTrans ts cm.customerId).map (fun t => t.invoice)).toFinset.card ∧
    cm.Frequency ≤ (custTrans ts cm.customerId).length := by
  unfold rfm at h
  dsimp only at h
  rcases List.mem_map.mp h with ⟨cid, hcid, hceq⟩
  rw [← hceq]
  dsimp only
  constructor
  · rw [List.card_toFinset]
  · calc ((custTrans ts cid).map (fun t => t.invoice)).dedup.length
        ≤ ((custTrans ts cid).map (fun t => t.invoice)).length :=
          (List.dedup_sublist _).length_le
      _ = (custTrans ts cid).length := List.length_map _ _

/-- C9 (implicit): every aggregated row's Recency is strictly positive,
because the snapshot date exceeds every transaction date by a full day. -/
theorem C9_recency_positive (ts : List CleanTransaction)
    (cm : CustomerMetrics) (h : cm ∈ rfm ts) : 0 < cm.Recency := by
  unfold rfm at h
  dsimp only at h
  rcases List.mem_map.mp h with ⟨cid, hcid, hceq⟩
  rw [← hceq]
  dsimp only
  have hsub : listMaxN ((custTrans ts cid).map (fun t => t.date)) ≤
      listMaxN (ts.map (fun t => t.date)) := by
    apply listMaxN_le
    intro x hx
    rcases List.mem_map.mp hx with ⟨t, ht, hteq⟩
    have htm : t ∈ ts := (List.mem_filter.mp ht).1
    exact hteq ▸ le_listMaxN (List.mem_map_of_mem _ htm)
  unfold snapshot_date
  apply Nat.div_pos _ (by norm_num)
  omega

/-- C8: every row surviving the cleaning stage has positive quantity and
price, revenue equal to quantity times price (hence positive), and comes
from an input record with a present customer id and a timestamp that
parses under the fixed day/month/year hour:minute format; offending rows
are dropped, never raised on. -/
theorem C8_cleaning_invariants (records : List TransactionRecord)
    (t : CleanTransaction) (h : t ∈ df_clean records) :
    0 < t.quantity ∧ 0 < t.price ∧ t.revenue = (t.quantity : ℚ) * t.price ∧
    0 < t.revenue ∧
    ∃ r ∈ records, r.customerId = some t.customerId ∧ r.invoice = t.invoice ∧
      r.quantity = t.quantity ∧ r.price = t.price ∧
      parseTimestamp r.invoiceDate = some t.date := by
  unfold df_clean at h
  dsimp only at h
  rcases List.mem_filterMap.mp h with ⟨r, hr, hmatch⟩
  rcases List.mem_filter.mp hr with ⟨hr2, hprice⟩
  rcases List.mem_filter.mp hr2 with ⟨hr3, hqty⟩
  rcases List.mem_filter.mp hr3 with ⟨hrmem, hcid⟩
  have hq : 0 < r.quantity := of_decide_eq_true hqty
  have hpr : 0 < r.price := of_decide_eq_true hprice
  cases hc : r.customerId with
  | none => rw [hc] at hmatch; cases hmatch
  | some cid =>
    cases hpd : parseTimestamp r.invoiceDate with
    | none => rw [hc, hpd] at hmatch; cases hmatch
    | some d =>
      rw [hc, hpd] at hmatch
      dsimp only at hmatch
      have ht := Option.some.inj hmatch
      rw [← ht]
      dsimp only
      exact ⟨hq, hpr, rfl, mul_pos (by exact_mod_cast hq) hpr,
        r, hrmem, hc, rfl, rfl, rfl, hpd⟩

/-- C10 (amended): the scoring stage does fail on orderly non-empty
populations: whenever every customer's Frequency is at least 3, the fixed
frequency bin edges `[min - 1, 1, 2, 3, max]` decrease from `min - 1` to
`1`, `pd.cut` rejects them, and no customer in the run receives any
scores.  (For minimum Frequency exactly 2, the edge list is merely
non-strictly increasing, which `pd.cut` accepts -- see the
counterexample.) -/
theorem C10_freq_bins_failure (pop : List CustomerMetrics)
    (hne : pop ≠ []) (hmin : ∀ c ∈ pop, 3 ≤ c.Frequency) :
    assignScores pop = none := by
  have h3 : (3 : ℚ) ≤ listMinQ (pop.map (fun c => (c.Frequency : ℚ))) := by
    apply le_listMinQ
    · simpa using hne
    · intro x hx
      rcases List.mem_map.mp hx with ⟨c, hc, hceq⟩
      have h4 := hmin c hc
      exact hceq ▸ (by exact_mod_cast h4)
  have hnotle : ¬(listMinQ (pop.map (fun c => (c.Frequency : ℚ))) - 1 ≤
      (1 : ℚ)) := by linarith
  have hmono : monoB (freqBins pop) = false := by
    simp [monoB, freqBins, hnotle]
  unfold assignScores
  rw [if_neg (by simpa using hne)]
  cases hqr : qcut4 (pop.map (fun c => (c.Recency : ℚ))) [4, 3, 2, 1] with
  | none => rfl
  | some rCol =>
    dsimp only
    simp [pdCut, hmono]

/-- Witness for C10 (amended) on a two-customer population whose
Frequencies are both 3. -/
theorem C10_freq_bins_failure_witness :
    assignScores [⟨1, 1, 3, 10⟩, ⟨2, 5, 3, 20⟩] = none :=
  C10_freq_bins_failure [⟨1, 1, 3, 10⟩, ⟨2, 5, 3, 20⟩] (by simp)
    (by decide)

/-- C10 counterexample: a population whose minimum Frequency is 2 (here 2
and 5) passes the `pd.cut` monotonicity check -- the edge list
`[1, 1, 2, 3, 5]` never decreases -- so the stage succeeds and every
customer is scored, contrary to the claim that any minimum Frequency of
at least 2 makes the binning raise. -/
theorem C10_counterexample :
    (assignScores [⟨1, 2, 2, 15⟩, ⟨2, 6, 5, 30⟩]).isSome = true ∧
    2 ≤ (⟨1, 2, 2, 15⟩ : CustomerMetrics).Frequency ∧
    2 ≤ (⟨2, 6, 5, 30⟩ : CustomerMetrics).Frequency := by
  have heval : assignScores [⟨1, 2, 2, 15⟩, ⟨2, 6, 5, 30⟩] =
      some [⟨⟨1, 2, 2, 15⟩, 4, 2, 1⟩, ⟨⟨2, 6, 5, 30⟩, 1, 4, 4⟩] := by
    norm_num [assignScores, qcut4, pdCut, rfmEdges, quantile, sortedQ, freqBins,
      monetaryBins, listMinQ, listMaxQ, bucketAssign, searchCount, chainLtB,
      monoB, allSome, zipScores, ratFloor_eq_intFloor, List.insertionSort,
      List.orderedInsert]
  rw [heval]
  exact ⟨rfl, by norm_num, by norm_num⟩

/-- Witness for C7: a customer with five line items all on one invoice has
Frequency 1, not 5. -/
theorem C7_frequency_distinct_invoices_witness :
    (⟨3, 1, 1, 10⟩ : CustomerMetrics) ∈ rfm [⟨3, "I1", 1, 2, 2, 500⟩,
      ⟨3, "I1", 2, 1, 2, 500⟩, ⟨3, "I1", 1, 2, 2, 600⟩,
      ⟨3, "I1", 3, 1, 3, 600⟩, ⟨3, "I1", 1, 1, 1, 700⟩] ∧
    (⟨3, 1, 1, 10⟩ : CustomerMetrics).Frequency =
      ((custTrans [⟨3, "I1", 1, 2, 2, 500⟩, ⟨3, "I1", 2, 1, 2, 500⟩,
        ⟨3, "I1", 1, 2, 2, 600⟩, ⟨3, "I1", 3, 1, 3, 600⟩,
        ⟨3, "I1", 1, 1, 1, 700⟩] 3).map (fun t => t.invoice)).toFinset.card ∧
    (⟨3, 1, 1, 10⟩ : CustomerMetrics).Frequency = 1 := by
  have heval : rfm [⟨3, "I1", 1, 2, 2, 500⟩, ⟨3, "I1", 2, 1, 2, 500⟩,
      ⟨3, "I1", 1, 2, 2, 600⟩, ⟨3, "I1", 3, 1, 3, 600⟩,
      ⟨3, "I1", 1, 1, 1, 700⟩] = [⟨3, 1, 1, 10⟩] := by
    norm_num [rfm, snapshot_date, custTrans, listMaxN, List.dedup_cons_of_mem,
      List.dedup_cons_of_not_mem, List.filter]
  have hmem : (⟨3, 1, 1, 10⟩ : CustomerMetrics) ∈ rfm [⟨3, "I1", 1, 2, 2, 500⟩,
      ⟨3, "I1", 2, 1, 2, 500⟩, ⟨3, "I1", 1, 2, 2, 600⟩,
      ⟨3, "I1", 3, 1, 3, 600⟩, ⟨3, "I1", 1, 1, 1, 700⟩] := by
    rw [heval]; exact List.Mem.head _
  exact ⟨hmem, (C7_frequency_distinct_invoices _ _ hmem).1, rfl⟩

/-- Witness for C8 on a four-record input: one good row, one with a
missing customer id, one return, one unparseable date. -/
theorem C8_cleaning_invariants_witness :
    (⟨7, "A", 2, 3, 6, 1057263030⟩ : CleanTransaction) ∈
      df_clean [⟨some 7, "A", 2, 3, "15/3/2011 10:30"⟩,
        ⟨none, "B", 2, 3, "15/3/2011 10:30"⟩,
        ⟨some 8, "C", -1, 3, "15/3/2011 10:30"⟩,
        ⟨some 9, "D", 2, 3, "31/2/2011 10:30"⟩] ∧
    0 < (⟨7, "A", 2, 3, 6, 1057263030⟩ : CleanTransaction).revenue := by
  have hp1 : parseTimestamp "15/3/2011 10:30" = some 1057263030 := by decide
  have hp2 : parseTimestamp "31/2/2011 10:30" = none := by decide
  have heval : df_clean [⟨some 7, "A", 2, 3, "15/3/2011 10:30"⟩,
      ⟨none, "B", 2, 3, "15/3/2011 10:30"⟩,
      ⟨some 8, "C", -1, 3, "15/3/2011 10:30"⟩,
      ⟨some 9, "D", 2, 3, "31/2/2011 10:30"⟩] =
      [⟨7, "A", 2, 3, 6, 1057263030⟩] := by
    norm_num [df_clean, List.filter, List.filterMap, hp1, hp2]
  have hmem : (⟨7, "A", 2, 3, 6, 1057263030⟩ : CleanTransaction) ∈
      df_clean [⟨some 7, "A", 2, 3, "15/3/2011 10:30"⟩,
        ⟨none, "B", 2, 3, "15/3/2011 10:30"⟩,
        ⟨some 8, "C", -1, 3, "15/3/2011 10:30"⟩,
        ⟨some 9, "D", 2, 3, "31/2/2011 10:30"⟩] := by
    rw [heval]; exact List.Mem.head _
  exact ⟨hmem, (C8_cleaning_invariants _ _ hmem).2.2.2.1⟩

/-- Witness for C9 on a one-transaction input, whose single customer has
Recency exactly 1 day. -/
theorem C9_recency_positive_witness :
    (⟨4, 1, 1, 2⟩ : CustomerMetrics) ∈ rfm [⟨4, "I1", 1, 2, 2, 777⟩] ∧
    0 < (⟨4, 1, 1, 2⟩ : CustomerMetrics).Recency := by
  have heval : rfm [⟨4, "I1", 1, 2, 2, 777⟩] = [⟨4, 1, 1, 2⟩] := by
    norm_num [rfm, snapshot_date, custTrans, listMaxN, List.dedup_cons_of_mem,
      List.dedup_cons_of_not_mem, List.filter]
  have hmem : (⟨4, 1, 1, 2⟩ : CustomerMetrics) ∈ rfm [⟨4, "I1", 1, 2, 2, 777⟩] := by
    rw [heval]; exact List.Mem.head _
  exact ⟨hmem, C9_recency_positive _ _ hmem⟩
